import Mathlib

/-
Verification of the Evaluation Harvesting & Ranking Engine.

A shallow embedding of the core services:
  * model_evaluation_scanner.py : name normalization, score parsing,
    theme-ranking calculation, model-evaluation building, full scan loop;
  * model_selector_v2.py : optimal-model selection under a budget tier,
    dynamic-evaluation snapshot updates;
  * evaluation_scheduler.py : the scan step that republishes the snapshot.

Python dicts are modelled as insertion-ordered association lists; Python
floats as exact rationals; strings processed character-wise as `List Char`
where the normalizer and score cleaner manipulate their contents, and as
`String` where they are opaque keys.
-/

namespace PromptYourAI

/-! Association-list utilities (insertion-ordered dict model) -/

/-- Lookup in an association list, first match wins (Python dict `get`). -/
def alookup {κ α : Type} [DecidableEq κ] : List (κ × α) → κ → Option α
  | [], _ => none
  | (k, v) :: rest, k0 => if k = k0 then some v else alookup rest k0

/-- Update the value at a key in place, keeping the entry position
(Python `d[k] = f(d[k])` for a present key); identity when absent. -/
def aupdate {κ α : Type} [DecidableEq κ] : List (κ × α) → κ → (α → α) → List (κ × α)
  | [], _, _ => []
  | (k, v) :: rest, k0, f =>
    if k = k0 then (k, f v) :: rest else (k, v) :: aupdate rest k0 f

theorem alookup_aupdate {κ α : Type} [DecidableEq κ] (l : List (κ × α)) (k0 m : κ) (f : α → α) :
    alookup (aupdate l k0 f) m =
      if m = k0 then (alookup l k0).map f else alookup l m := by
  induction l with
  | nil => simp [alookup, aupdate]
  | cons p rest ih =>
    obtain ⟨k, v⟩ := p
    by_cases hk : k = k0
    · subst hk
      by_cases hm : k = m
      · subst hm; simp [aupdate, alookup]
      · simp [aupdate, alookup, hm, Ne.symm hm]
    · by_cases hm : k = m
      · subst hm
        simp [aupdate, alookup, hk, Ne.symm hk]
      · simp [aupdate, alookup, hk, hm, ih]

theorem alookup_append {κ α : Type} [DecidableEq κ] (l₁ l₂ : List (κ × α)) (m : κ) :
    alookup (l₁ ++ l₂) m = ((alookup l₁ m).or (alookup l₂ m)) := by
  induction l₁ with
  | nil => simp [alookup]
  | cons p rest ih =>
    by_cases h : p.1 = m <;> simp [alookup, h, ih]

/-! Name Normalizer (`_normalize_model_name`)

The source strips surrounding whitespace, removes one case-insensitive
provider path prefix, removes one case-insensitive `-chat`/`-instruct`/`-base`
suffix, and finally looks the lower-cased result up in the alias table,
returning the stripped (case-preserved) name on a miss. -/

def pythonWhitespace : List Char := [' ', '\t', '\n', '\r', '\x0b', '\x0c']

def isPySpace (c : Char) : Bool := pythonWhitespace.contains c

/-- Python `str.strip()`: drop whitespace from both ends. -/
def pyStrip (cs : List Char) : List Char :=
  ((cs.dropWhile isPySpace).reverse.dropWhile isPySpace).reverse

def lowerChars (cs : List Char) : List Char := cs.map Char.toLower

/-- Provider prefixes of the regex
`^(meta-llama/|microsoft/|google/|anthropic/)` (IGNORECASE). -/
def providerPrefixes : List (List Char) :=
  ["meta-llama/".data, "microsoft/".data, "google/".data, "anthropic/".data]

/-- Remove one matching provider prefix, case-insensitively (anchored `re.sub`
replaces at most one occurrence at the start). -/
def stripProvider (cs : List Char) : List Char :=
  match providerPrefixes.find? (fun p => p.isPrefixOf (lowerChars cs)) with
  | some p => cs.drop p.length
  | none => cs

/-- Model suffixes of the regex `-(chat|instruct|base)$` (IGNORECASE). -/
def modelSuffixes : List (List Char) :=
  ["-chat".data, "-instruct".data, "-base".data]

/-- Remove one matching suffix, case-insensitively (anchored `re.sub`
replaces at most one occurrence at the end). -/
def stripModelSuffix (cs : List Char) : List Char :=
  match modelSuffixes.find? (fun p => p.isSuffixOf (lowerChars cs)) with
  | some p => cs.take (cs.length - p.length)
  | none => cs

/-- The stripped form before the alias-table lookup. -/
def strippedForm (raw : List Char) : List Char :=
  stripModelSuffix (stripProvider (pyStrip raw))

/-- The fallback alias table hard-coded in `_normalize_model_name`
(used when the configuration carries no `model_aliases`). -/
def defaultAliases : List (List Char × List Char) :=
  [ ("gpt-4-turbo".data, "gpt-4".data)
  , ("claude-3-opus-20240229".data, "claude-3-opus".data)
  , ("claude-3-sonnet-20240229".data, "claude-3-sonnet".data)
  , ("claude-3-haiku-20240307".data, "claude-3-haiku".data)
  , ("gemini-pro".data, "gemini-pro".data)
  , ("llama-2-70b".data, "llama-2-70b".data) ]

/-- `_normalize_model_name`: strip, remove one provider prefix and one model
suffix, then `name_mappings.get(name.lower(), name)`. -/
def normalize_model_name (aliases : List (List Char × List Char)) (raw : List Char) : List Char :=
  let name := strippedForm raw
  (alookup aliases (lowerChars name)).getD name

/-! Score cleaner (`_parse_score`)

`re.sub(r'[%,\s]', '', text)` then `re.search(r'([0-9]*\.?[0-9]+)', ...)`
and `float(...)` of the first match. -/

/-- Remove `%`, commas, and whitespace (the `[%,\s]` character class). -/
def cleanScoreText (cs : List Char) : List Char :=
  cs.filter (fun c => !(c = '%' || c = ',' || isPySpace c))

/-- Numeric value of a digit run. -/
def digitsVal (l : List Char) : Nat :=
  l.foldl (fun a c => a * 10 + (c.toNat - 48)) 0

/-- Value of a fractional digit run `d₁…dₖ` as `0.d₁…dₖ`. -/
def fracVal (l : List Char) : ℚ :=
  (digitsVal l : ℚ) / (10 : ℚ) ^ l.length

/-- Attempt the regex `[0-9]*\.?[0-9]+` at the start of the string, with
Python's greedy-with-backtracking semantics: a maximal integer run, then a
fractional part when a dot with at least one following digit is present. -/
def matchNumberAt (cs : List Char) : Option ℚ :=
  let d1 := cs.takeWhile Char.isDigit
  let rest := cs.drop d1.length
  match d1, rest with
  | [], '.' :: r2 =>
    let d2 := r2.takeWhile Char.isDigit
    if d2 = [] then none else some (fracVal d2)
  | [], _ => none
  | _ :: _, '.' :: r2 =>
    let d2 := r2.takeWhile Char.isDigit
    if d2 = [] then some (digitsVal d1) else some ((digitsVal d1 : ℚ) + fracVal d2)
  | _ :: _, _ => some (digitsVal d1)

/-- Leftmost regex match (`re.search` scans positions left to right). -/
def searchNumber : List Char → Option ℚ
  | [] => none
  | c :: rest =>
    match matchNumberAt (c :: rest) with
    | some v => some v
    | none => searchNumber rest

/-- `_parse_score`: clean the text, search for the first number. -/
def parse_score (cs : List Char) : Option ℚ :=
  searchNumber (cleanScoreText cs)

/-! Observation data model

`all_model_data : source_name → (model_key → (metric_name → value))`,
each level an insertion-ordered dict. -/

abbrev Scores := List (String × ℚ)

abbrev SourceData := List (String × Scores)

abbrev AllModelData := List (String × SourceData)

/-- Python truthiness fallback of `scores.get("Average") or 0`. -/
def averageOf (s : Scores) : ℚ :=
  match alookup s "Average" with
  | some v => if v ≠ 0 then v else 0
  | none => 0

/-- `model_scores.get("overall") or model_scores.get("Average") or 0`:
a present-but-zero `overall` falls through to `Average` (Python `or`). -/
def overallOf (s : Scores) : ℚ :=
  match alookup s "overall" with
  | some v => if v ≠ 0 then v else averageOf s
  | none => averageOf s

/-! Theme Ranking Engine (`_calculate_theme_rankings`)

The accumulator mirrors the `theme_scores` dict: model key mapped to the
pair `(total_weight, weighted_score)`, entries in first-insertion order. -/

/-- `if model_name not in theme_scores: theme_scores[model_name] = {0, 0}`. -/
def ainsertDefault (ts : List (String × (ℚ × ℚ))) (m : String) : List (String × (ℚ × ℚ)) :=
  if (alookup ts m).isSome then ts else ts ++ [(m, (0, 0))]

/-- Add one source's contribution: `total_weight += w`,
`weighted_score += overall * w`. -/
def updEntry (w v : ℚ) (p : ℚ × ℚ) : ℚ × ℚ := (p.1 + w, p.2 + v * w)

/-- Body of the per-model loop: ensure the entry exists, then contribute
only when the source's overall value is positive. -/
def processModel (w : ℚ) (ts : List (String × (ℚ × ℚ))) (m : String) (sc : Scores) :
    List (String × (ℚ × ℚ)) :=
  let ts1 := ainsertDefault ts m
  let v := overallOf sc
  if 0 < v then aupdate ts1 m (updEntry w v) else ts1

/-- Fold one source's model map into the accumulator. -/
def processSource (w : ℚ) (ts : List (String × (ℚ × ℚ))) (sd : SourceData) :
    List (String × (ℚ × ℚ)) :=
  sd.foldl (fun acc p => processModel w acc p.1 p.2) ts

/-- Body of the per-source loop: skip sources whose weight for the theme is
zero (or absent), otherwise fold the source's model map in. -/
def scanStep (weights : List (String × ℚ)) (acc : List (String × (ℚ × ℚ)))
    (p : String × SourceData) : List (String × (ℚ × ℚ)) :=
  let w := (alookup weights p.1).getD 0
  if w = 0 then acc else processSource w acc p.2

/-- The `theme_scores` accumulation over all sources. -/
def themeScoresAcc (weights : List (String × ℚ)) (d : AllModelData) :
    List (String × (ℚ × ℚ)) :=
  d.foldl (scanStep weights) []

/-- `len([s for s in theme_weights.keys() if s in all_model_data])` —
the same count is attached to every entry of the theme's ranking. -/
def themeSourcesCount (d : AllModelData) (weights : List (String × ℚ)) : Nat :=
  (weights.filter (fun p => (alookup d p.1).isSome)).length

/-- A ranking entry before rank assignment. -/
structure PreEntry where
  model : String
  score : ℚ
  sources_count : Nat
deriving DecidableEq

/-- A ranking entry of a `ThemeRanking` (1-based rank). -/
structure RankEntry where
  model : String
  score : ℚ
  sources_count : Nat
  rank : Nat
deriving DecidableEq

/-- Keep accumulator entries with positive total weight and normalize:
`weighted_score / total_weight`. -/
def normalizedEntries (d : AllModelData) (weights : List (String × ℚ)) : List PreEntry :=
  (themeScoresAcc weights d).filterMap
    (fun p =>
      if 0 < p.2.1 then some ⟨p.1, p.2.2 / p.2.1, themeSourcesCount d weights⟩ else none)

/-- Descending-score ordering used by `sort(key=score, reverse=True)`;
insertion sort with this relation is the stable descending sort Python uses. -/
def scoreGE (a b : PreEntry) : Prop := b.score ≤ a.score

instance : DecidableRel scoreGE := fun a b => inferInstanceAs (Decidable (b.score ≤ a.score))

instance : IsTotal PreEntry scoreGE := ⟨fun a b => le_total b.score a.score⟩

instance : IsTrans PreEntry scoreGE := ⟨fun _ _ _ h1 h2 => le_trans h2 h1⟩

/-- Attach 1-based ranks in list order (`model_data["rank"] = i + 1`). -/
def assignRanks : Nat → List PreEntry → List RankEntry
  | _, [] => []
  | i, e :: rest => ⟨e.model, e.score, e.sources_count, i⟩ :: assignRanks (i + 1) rest

/-- One theme's ranking: normalize, sort descending (stably), rank. -/
def rankTheme (d : AllModelData) (weights : List (String × ℚ)) : List RankEntry :=
  assignRanks 1 (List.insertionSort scoreGE (normalizedEntries d weights))

/-- `_calculate_theme_rankings` over all configured themes. -/
def calculate_theme_rankings (d : AllModelData)
    (themeSourceWeights : List (String × List (String × ℚ))) (themes : List String) :
    List (String × List RankEntry) :=
  themes.map (fun t => (t, rankTheme d ((alookup themeSourceWeights t).getD [])))

/-! Model Evaluation Builder (`_create_model_evaluations`) -/

/-- One published `ModelEvaluation` record. -/
structure ModelEval where
  model : String
  overall_score : ℚ
  theme_scores : List (String × (ℚ × Nat))
  source_scores : List (String × Scores)
  last_updated : String
  sources_count : Nat
deriving DecidableEq

/-- The `source_scores` map: every source that knows the model, with the raw
metric map, in source order. -/
def sourceScoresFor (d : AllModelData) (m : String) : List (String × Scores) :=
  d.filterMap (fun p => (alookup p.2 m).map (fun sc => (p.1, sc)))

/-- The usable overall metrics contributed to the mean: one value per source
that knows the model and reports a positive `overall`/`Average`. -/
def usableOveralls (d : AllModelData) (m : String) : List ℚ :=
  (sourceScoresFor d m).filterMap
    (fun p => let v := overallOf p.2; if 0 < v then some v else none)

/-- `theme_scores[theme] = {score, rank}` looked up from each theme's
ranking via `next((m for m in theme_data if m["model"] == model_name), None)`. -/
def themeScoresFor (rankings : List (String × List RankEntry)) (m : String) :
    List (String × (ℚ × Nat)) :=
  rankings.filterMap
    (fun p => (p.2.find? (fun e => decide (e.model = m))).map (fun e => (p.1, (e.score, e.rank))))

/-- Build one model's evaluation record. -/
def buildEval (d : AllModelData) (rankings : List (String × List RankEntry))
    (now : String) (m : String) : ModelEval :=
  let usable := usableOveralls d m
  { model := m
    overall_score := if usable.length ≠ 0 then usable.sum / (usable.length : ℚ) else 0
    theme_scores := themeScoresFor rankings m
    source_scores := sourceScoresFor d m
    last_updated := now
    sources_count := usable.length }

/-- The union of model keys across sources, first occurrence first,
without duplicates (models the `all_models` set). -/
def allModels (d : AllModelData) : List String :=
  d.foldl
    (fun acc p =>
      p.2.foldl (fun acc2 q => if acc2.contains q.1 then acc2 else acc2 ++ [q.1]) acc)
    []

/-- `_create_model_evaluations`: one record per model seen by any source. -/
def create_model_evaluations (d : AllModelData) (rankings : List (String × List RankEntry))
    (now : String) : List (String × ModelEval) :=
  (allModels d).map (fun m => (m, buildEval d rankings now m))

/-! Harvest Coordinator (`run_full_scan` / `_scrape_source`)

Network behaviour is an input: each configured source carries the outcome
its scrape attempt would produce. `_scrape_source` catches every exception
raised while scraping and returns `None`; only the `scraping_config`
key access sits before its `try` and can propagate. -/

inductive ScrapeOutcome where
  | success (data : SourceData)
  | failure (msg : String)
deriving DecidableEq

/-- One configured source together with its scrape attempt's behaviour. -/
structure SourceSpec where
  name : String
  hasScrapingConfig : Bool
  outcome : ScrapeOutcome
deriving DecidableEq

/-- `_scrape_source`: a missing `scraping_config` raises to the caller; any
scraping failure is caught, logged, and turned into `None`. -/
def scrape_source (s : SourceSpec) : Except String (Option SourceData) :=
  if s.hasScrapingConfig = false then Except.error "KeyError: scraping_config"
  else
    match s.outcome with
    | ScrapeOutcome.success d => Except.ok (some d)
    | ScrapeOutcome.failure _ => Except.ok none

/-- The error strings appended to `results["errors"]`: only exceptions that
escape `_scrape_source` are recorded. -/
def scanErrors (sources : List SourceSpec) : List String :=
  sources.filterMap
    (fun s =>
      match scrape_source s with
      | Except.error e => some ("Failed to scrape " ++ s.name ++ ": " ++ e)
      | Except.ok _ => none)

/-- The merged `all_model_data`: sources whose scrape returned truthy
(non-empty) data, in configuration order. -/
def scanData (sources : List SourceSpec) : AllModelData :=
  sources.filterMap
    (fun s =>
      match scrape_source s with
      | Except.ok (some d) => if d.length ≠ 0 then some (s.name, d) else none
      | _ => none)

/-- The completed scan result (`ScanRun` audit record plus payload). -/
structure ScanResults where
  sources_scanned : Nat
  evaluations_collected : Nat
  models_found : Nat
  errors : List String
  theme_rankings : List (String × List RankEntry)
  model_evaluations : List (String × ModelEval)
deriving DecidableEq

/-- `run_full_scan`: scrape every source, then rank and build evaluations
from whatever data was merged. -/
def run_full_scan (sources : List SourceSpec)
    (themeSourceWeights : List (String × List (String × ℚ))) (themes : List String)
    (now : String) : ScanResults :=
  let d := scanData sources
  let rankings := calculate_theme_rankings d themeSourceWeights themes
  let evals := create_model_evaluations d rankings now
  { sources_scanned := d.length
    evaluations_collected := (d.map (fun p => p.2.length)).sum
    models_found := evals.length
    errors := scanErrors sources
    theme_rankings := rankings
    model_evaluations := evals }

/-! Model Selector state and scheduler scan step -/

/-- One entry of the selector's `dynamic_model_scores` snapshot. -/
structure DynScore where
  overall_score : ℚ
  theme_scores : List (String × ℚ)
  sources_count : Nat
  last_updated : Option String
deriving DecidableEq

/-- The selector's published-snapshot state. -/
structure SelectorState where
  dynamic_model_scores : List (String × DynScore)
  last_evaluation_update : Option String
deriving DecidableEq

/-- `update_dynamic_evaluations`: unconditionally replaces the snapshot and
stamps the update time. -/
def update_dynamic_evaluations (_st : SelectorState) (data : List (String × DynScore))
    (now : String) : SelectorState :=
  { dynamic_model_scores := data, last_evaluation_update := some now }

/-- The scheduler's `_update_model_selector` transformation of a scan's
`model_evaluations` into the selector's format (scores rescaled to 0-100). -/
def transform_evaluations (evals : List (String × ModelEval)) : List (String × DynScore) :=
  evals.map
    (fun p =>
      (p.1,
        { overall_score := p.2.overall_score * 100
          theme_scores := p.2.theme_scores.map (fun q => (q.1, q.2.1 * 100))
          sources_count := p.2.sources_count
          last_updated := some p.2.last_updated }))

/-- The scheduler's cumulative statistics. -/
structure SchedulerStats where
  total_scans : Nat
  successful_scans : Nat
  failed_scans : Nat
deriving DecidableEq

/-- `_run_scan("full_scan")` when the scan coroutine itself raises no
exception: the scan result always carries a `model_evaluations` key, so the
selector is updated with it unconditionally, and the scan is counted
successful. -/
def run_scan_step (st : SelectorState) (stats : SchedulerStats) (sources : List SourceSpec)
    (themeSourceWeights : List (String × List (String × ℚ))) (themes : List String)
    (scanTime updateTime : String) : SelectorState × SchedulerStats :=
  let results := run_full_scan sources themeSourceWeights themes scanTime
  ( update_dynamic_evaluations st (transform_evaluations results.model_evaluations) updateTime
  , { stats with
      total_scans := stats.total_scans + 1
      successful_scans := stats.successful_scans + 1 } )

/-! Model Selector (`_select_optimal_model`) -/

/-- Descending ordering on `(model, score)` pairs for
`sorted(scored_models.items(), key=..., reverse=True)`. -/
def pairScoreGE (a b : String × ℚ) : Prop := b.2 ≤ a.2

instance : DecidableRel pairScoreGE := fun a b => inferInstanceAs (Decidable (b.2 ≤ a.2))

instance : IsTotal (String × ℚ) pairScoreGE := ⟨fun a b => le_total b.2 a.2⟩

instance : IsTrans (String × ℚ) pairScoreGE := ⟨fun _ _ _ h1 h2 => le_trans h2 h1⟩

/-- `self.base_models.get(model, {}).get("cost_per_1k_tokens", 1.0)`. -/
def costOf (base_models : List (String × ℚ)) (m : String) : ℚ :=
  (alookup base_models m).getD 1

/-- `_select_optimal_model`: empty candidates fall back to a safe default;
the candidates are sorted by descending score; the `"budget"` tier prefers
the best-scoring candidate within the cost limit when one exists. -/
def select_optimal_model (scored_models : List (String × ℚ)) (base_models : List (String × ℚ))
    (budget_limit : ℚ) (budget_tier : String) : String :=
  match List.insertionSort pairScoreGE scored_models with
  | [] => "claude-3-sonnet"
  | top :: rest =>
    if budget_tier = "budget" then
      match (top :: rest).filter (fun p => decide (costOf base_models p.1 ≤ budget_limit)) with
      | b :: _ => b.1
      | [] => top.1
    else top.1

/-! Specification-side views used to state the claims -/

/-- The effect of `processModel` on one entry of the accumulator. -/
def pmUpd (w : ℚ) (sc : Scores) (p : ℚ × ℚ) : ℚ × ℚ :=
  if 0 < overallOf sc then updEntry w (overallOf sc) p else p

/-- The `(weight, value)` contributions a model receives for a theme: one
pair per nonzero-weight source that knows the model and reports a positive
overall metric. -/
def contribList (d : AllModelData) (weights : List (String × ℚ)) (m : String) :
    List (ℚ × ℚ) :=
  d.filterMap
    (fun p =>
      let w := (alookup weights p.1).getD 0
      if w = 0 then none
      else
        match alookup p.2 m with
        | some sc => if 0 < overallOf sc then some (w, overallOf sc) else none
        | none => none)

/-- Σ source_weight over contributing sources. -/
def contribWeight (d : AllModelData) (weights : List (String × ℚ)) (m : String) : ℚ :=
  ((contribList d weights m).map Prod.fst).sum

/-- Σ (overall_value × source_weight) over contributing sources. -/
def contribScore (d : AllModelData) (weights : List (String × ℚ)) (m : String) : ℚ :=
  ((contribList d weights m).map (fun p => p.2 * p.1)).sum

/-- Whether any nonzero-weight source mentions the model at all (this is
what makes the accumulator allocate an entry for it). -/
def appearsWeighted (d : AllModelData) (weights : List (String × ℚ)) (m : String) : Bool :=
  d.any (fun p => (!((alookup weights p.1).getD 0 == 0)) && (alookup p.2 m).isSome)

/-- Blank out the builder's clock stamp, for comparing two builder runs. -/
def eraseTimestamp (e : ModelEval) : ModelEval := { e with last_updated := "" }

/-! Concrete fixtures -/

/-- Two sources that both fail with a scraping exception (caught inside
`_scrape_source`). -/
def allFailSources : List SourceSpec :=
  [ ⟨"sourceA", true, ScrapeOutcome.failure "HTTP 500"⟩
  , ⟨"sourceB", true, ScrapeOutcome.failure "Timeout"⟩ ]

/-- A previously published, non-empty selector snapshot. -/
def previousSnapshot : SelectorState :=
  { dynamic_model_scores :=
      [("gpt-4", { overall_score := 85, theme_scores := [("coding_programming", 88)],
                   sources_count := 2, last_updated := some "2024-01-01T00:00:00" })]
  , last_evaluation_update := some "2024-01-01T00:00:00" }

/-- A source reporting only an arena `rating` metric for one model: no
usable `overall`/`Average` metric exists for it. -/
def arenaOnlyData : AllModelData := [("arena1", [("model-x", [("rating", 1200)])])]

/-- Candidates for the §8 budget-tier scenario: scores, with `m3` the best
scoring but over budget. -/
def demoScored : List (String × ℚ) := [("m1", 8/10), ("m2", 9/10), ("m3", 95/100)]

/-- Static costs per 1k tokens for the §8 budget-tier scenario:
`[0.001, 0.01, 0.05]`. -/
def demoBase : List (String × ℚ) := [("m1", 1/1000), ("m2", 1/100), ("m3", 5/100)]

/-- Tie-break fixture: one source reports the same overall for `"b"` then
`"a"` (dict insertion order `b` before `a`). -/
def tieData : AllModelData := [("s1", [("b", [("overall", 50)]), ("a", [("overall", 50)])])]

def tieWeights : List (String × ℚ) := [("s1", 1)]

/-! Concrete sanity checks (the §8 two-source scenario) -/

def scenarioData : AllModelData :=
  [ ("source_a", [("gpt-4", [("overall", 90)])])
  , ("source_b", [("gpt-4", [("overall", 80)]), ("claude-3-sonnet", [("overall", 95)])]) ]

def scenarioWeights : List (String × ℚ) := [("source_a", 3/5), ("source_b", 2/5)]

/-! Theorems -/

/-! Score cleaner: non-negativity and totality on digit-bearing text -/

theorem fracVal_nonneg (l : List Char) : 0 ≤ fracVal l := by
  unfold fracVal
  positivity

theorem matchNumberAt_nonneg (cs : List Char) (v : ℚ) (h : matchNumberAt cs = some v) :
    0 ≤ v := by
  simp only [matchNumberAt] at h
  split at h
  · split at h
    · exact absurd h (by simp)
    · injection h with h
      subst h
      exact fracVal_nonneg _
  · exact absurd h (by simp)
  · split at h
    · injection h with h
      subst h
      exact Nat.cast_nonneg _
    · injection h with h
      subst h
      exact add_nonneg (Nat.cast_nonneg _) (fracVal_nonneg _)
  · injection h with h
    subst h
    exact Nat.cast_nonneg _

theorem matchNumberAt_none_head (c : Char) (rest : List Char)
    (h : matchNumberAt (c :: rest) = none) : c.isDigit = false := by
  by_contra hc
  have hc' : c.isDigit = true := by revert hc; cases c.isDigit <;> simp
  have htw : (c :: rest).takeWhile Char.isDigit = c :: rest.takeWhile Char.isDigit := by
    simp [List.takeWhile_cons, hc']
  simp only [matchNumberAt, htw] at h
  split at h <;> simp_all
  split at h <;> simp_all

theorem searchNumber_nonneg :
    ∀ (l : List Char) (v : ℚ), searchNumber l = some v → 0 ≤ v := by
  intro l
  induction l with
  | nil => intro v h; simp [searchNumber] at h
  | cons c rest ih =>
    intro v h
    simp only [searchNumber] at h
    split at h
    · next heq => injection h with h; subst h; exact matchNumberAt_nonneg _ _ heq
    · exact ih v h

theorem searchNumber_isSome :
    ∀ l : List Char, (∃ c ∈ l, c.isDigit) → (searchNumber l).isSome := by
  intro l
  induction l with
  | nil => rintro ⟨c, hc, _⟩; simp at hc
  | cons c rest ih =>
    rintro ⟨x, hx, hdig⟩
    simp only [searchNumber]
    split
    · simp
    · next heq =>
      rcases List.mem_cons.mp hx with hxc | hxr
      · subst hxc
        rw [matchNumberAt_none_head x rest heq] at hdig
        cases hdig
      · exact ih ⟨x, hxr, hdig⟩

theorem digit_mem_cleanScoreText (cs : List Char) (c : Char) (hc : c ∈ cs)
    (hd : c.isDigit) : c ∈ cleanScoreText cs := by
  have hne : ∀ a : Char, a.isDigit = false → c ≠ a := by
    intro a ha e
    subst e
    rw [hd] at ha
    cases ha
  have h1 : c ≠ '%' := hne '%' (by decide)
  have h2 : c ≠ ',' := hne ',' (by decide)
  have h3 : isPySpace c = false := by
    have s1 := hne ' ' (by decide)
    have s2 := hne '\t' (by decide)
    have s3 := hne '\n' (by decide)
    have s4 := hne '\r' (by decide)
    have s5 := hne '\x0b' (by decide)
    have s6 := hne '\x0c' (by decide)
    simp [isPySpace, pythonWhitespace, s1, s2, s3, s4, s5, s6]
  simp only [cleanScoreText, List.mem_filter]
  exact ⟨hc, by simp [h1, h2, h3]⟩

/-- C10: the numeric score cleaner returns either `none` or a non-negative
value; any text containing a digit parses to a number (a digit survives the
`[%,\s]` cleaning and the regex matches at or before it), e.g. `"abc12def"`
parses to 12; a leading minus sign is not part of the matched group, so
`"-5"` parses to 5, never a negative value. -/
theorem parse_score_nonneg_and_total :
    (∀ (cs : List Char) (v : ℚ), parse_score cs = some v → 0 ≤ v)
    ∧ (∀ cs : List Char, (∃ c ∈ cs, c.isDigit) → (parse_score cs).isSome)
    ∧ parse_score "abc12def".data = some 12
    ∧ parse_score "-5".data = some 5 := by
  refine ⟨?_, ?_, by decide, by decide⟩
  · intro cs v h
    exact searchNumber_nonneg _ v h
  · rintro cs ⟨c, hc, hd⟩
    exact searchNumber_isSome _ ⟨c, digit_mem_cleanScoreText cs c hc hd, hd⟩

/-- C10 witness: the theorem applied at `"-5"` (value 5, non-negative) and
at `"x7y"` (contains a digit, hence parses). -/
theorem parse_score_nonneg_and_total_witness :
    (0 : ℚ) ≤ 5 ∧ (parse_score "x7y".data).isSome :=
  ⟨parse_score_nonneg_and_total.1 "-5".data 5 (by decide),
    parse_score_nonneg_and_total.2.1 "x7y".data ⟨'7', by decide, by decide⟩⟩

/-! Name Normalizer: idempotence fails on stacked affixes -/

/-- C4 counterexample: `"llama-2-70b-chat-instruct"` normalizes to
`"llama-2-70b-chat"` (the anchored suffix regex removes only the final
`-instruct`), and a second application strips the now-final `-chat` as
well, so `normalize (normalize x) ≠ normalize x`. -/
theorem normalize_not_idempotent :
    normalize_model_name defaultAliases "llama-2-70b-chat-instruct".data
      = "llama-2-70b-chat".data
    ∧ normalize_model_name defaultAliases
        (normalize_model_name defaultAliases "llama-2-70b-chat-instruct".data)
      = "llama-2-70b".data
    ∧ "llama-2-70b".data ≠ "llama-2-70b-chat".data := by
  refine ⟨by decide, by decide, by decide⟩

/-- C4 amended: the normalizer is idempotent exactly on inputs whose
normalized form is already stable — no surrounding whitespace, no further
provider prefix, no further `-chat`/`-instruct`/`-base` suffix, and an
alias lookup that misses or maps the name to itself.  One application
strips at most one prefix and one suffix, so this stability is not
automatic (see the counterexample). -/
theorem normalize_idempotent_of_stable (aliases : List (List Char × List Char))
    (x : List Char)
    (h1 : pyStrip (normalize_model_name aliases x) = normalize_model_name aliases x)
    (h2 : stripProvider (normalize_model_name aliases x) = normalize_model_name aliases x)
    (h3 : stripModelSuffix (normalize_model_name aliases x) = normalize_model_name aliases x)
    (h4 : alookup aliases (lowerChars (normalize_model_name aliases x)) = none
        ∨ alookup aliases (lowerChars (normalize_model_name aliases x))
            = some (normalize_model_name aliases x)) :
    normalize_model_name aliases (normalize_model_name aliases x)
      = normalize_model_name aliases x := by
  have hs : strippedForm (normalize_model_name aliases x) = normalize_model_name aliases x := by
    unfold strippedForm
    rw [h1, h2, h3]
  show (alookup aliases (lowerChars (strippedForm (normalize_model_name aliases x)))).getD
      (strippedForm (normalize_model_name aliases x)) = normalize_model_name aliases x
  rw [hs]
  rcases h4 with h | h <;> simp [h]

/-- C4 amended witness: `"gpt-4"` is stable, so a second normalization is
the identity on its normal form. -/
theorem normalize_idempotent_of_stable_witness :
    normalize_model_name defaultAliases (normalize_model_name defaultAliases "gpt-4".data)
      = normalize_model_name defaultAliases "gpt-4".data :=
  normalize_idempotent_of_stable defaultAliases "gpt-4".data
    (by decide) (by decide) (by decide) (Or.inl (by decide))

/-! Name Normalizer: case handling -/

/-- C9: the alias lookup key is the lower-cased stripped name, but a miss
returns the stripped name with its original case; hence two raw names whose
stripped forms differ only in case, both missing from the alias table, map
to two distinct canonical keys. -/
theorem normalize_case_preserving :
    (∀ (aliases : List (List Char × List Char)) (x : List Char),
      alookup aliases (lowerChars (strippedForm x)) = none →
        normalize_model_name aliases x = strippedForm x)
    ∧ (∀ (aliases : List (List Char × List Char)) (x y : List Char),
        alookup aliases (lowerChars (strippedForm x)) = none →
        alookup aliases (lowerChars (strippedForm y)) = none →
        lowerChars (strippedForm x) = lowerChars (strippedForm y) →
        strippedForm x ≠ strippedForm y →
        normalize_model_name aliases x ≠ normalize_model_name aliases y) := by
  have hmiss : ∀ (aliases : List (List Char × List Char)) (x : List Char),
      alookup aliases (lowerChars (strippedForm x)) = none →
        normalize_model_name aliases x = strippedForm x := by
    intro aliases x h
    show (alookup aliases (lowerChars (strippedForm x))).getD (strippedForm x) = strippedForm x
    rw [h]
    rfl
  refine ⟨hmiss, ?_⟩
  intro aliases x y hx hy _ hne
  rw [hmiss aliases x hx, hmiss aliases y hy]
  exact hne

/-- C9 witness: `"GPT-4"` and `"gpt-4"` have case-differing stripped forms,
both absent from the default alias table, and normalize to distinct keys. -/
theorem normalize_case_preserving_witness :
    normalize_model_name defaultAliases "GPT-4".data
      ≠ normalize_model_name defaultAliases "gpt-4".data :=
  normalize_case_preserving.2 defaultAliases "GPT-4".data "gpt-4".data
    (by decide) (by decide) (by decide) (by decide)

/-! Theme Ranking Engine: accumulator lookup lemmas -/

theorem alookup_eq_none_iff {α : Type} (l : List (String × α)) (m : String) :
    alookup l m = none ↔ m ∉ l.map Prod.fst := by
  induction l with
  | nil => simp [alookup]
  | cons p rest ih =>
    by_cases h : p.1 = m
    · simp [alookup, h]
    · simp [alookup, h, Ne.symm h, ih]

theorem map_fst_aupdate {κ α : Type} [DecidableEq κ] (l : List (κ × α)) (k : κ) (f : α → α) :
    (aupdate l k f).map Prod.fst = l.map Prod.fst := by
  induction l with
  | nil => rfl
  | cons p rest ih =>
    by_cases h : p.1 = k <;> simp [aupdate, h, ih]

theorem alookup_ainsertDefault (ts : List (String × (ℚ × ℚ))) (k m : String) :
    alookup (ainsertDefault ts k) m =
      if m = k then some ((alookup ts k).getD (0, 0)) else alookup ts m := by
  unfold ainsertDefault
  by_cases h : (alookup ts k).isSome
  · rw [if_pos h]
    obtain ⟨v, hv⟩ := Option.isSome_iff_exists.mp h
    by_cases hm : m = k
    · subst hm; simp [hv]
    · simp [hm]
  · rw [if_neg h]
    have hn : alookup ts k = none := Option.not_isSome_iff_eq_none.mp h
    rw [alookup_append]
    by_cases hm : m = k
    · subst hm; simp [hn, alookup]
    · simp [alookup, hm, Ne.symm hm]

theorem alookup_processModel (w : ℚ) (ts : List (String × (ℚ × ℚ))) (k m : String)
    (sc : Scores) :
    alookup (processModel w ts k sc) m =
      if m = k then some (pmUpd w sc ((alookup ts k).getD (0, 0))) else alookup ts m := by
  simp only [processModel, pmUpd]
  by_cases hv : 0 < overallOf sc
  · simp only [if_pos hv, alookup_aupdate, alookup_ainsertDefault]
    by_cases hm : m = k
    · subst hm; simp
    · simp [hm]
  · simp only [if_neg hv, alookup_ainsertDefault]

theorem alookup_processSource_not_mem (w : ℚ) (sd : SourceData)
    (ts : List (String × (ℚ × ℚ))) (m : String) :
    m ∉ sd.map Prod.fst → alookup (processSource w ts sd) m = alookup ts m := by
  induction sd generalizing ts with
  | nil => intro _; rfl
  | cons p rest ih =>
    intro h
    simp only [List.map_cons, List.mem_cons, not_or] at h
    show alookup (processSource w (processModel w ts p.1 p.2) rest) m = alookup ts m
    calc alookup (processSource w (processModel w ts p.1 p.2) rest) m
        = alookup (processModel w ts p.1 p.2) m := ih _ h.2
      _ = alookup ts m := by rw [alookup_processModel, if_neg h.1]

theorem alookup_processSource (w : ℚ) (sd : SourceData) (ts : List (String × (ℚ × ℚ)))
    (m : String) (hnd : (sd.map Prod.fst).Nodup) :
    alookup (processSource w ts sd) m =
      match alookup sd m with
      | some sc => some (pmUpd w sc ((alookup ts m).getD (0, 0)))
      | none => alookup ts m := by
  induction sd generalizing ts with
  | nil => rfl
  | cons p rest ih =>
    obtain ⟨k, sc⟩ := p
    simp only [List.map_cons, List.nodup_cons] at hnd
    obtain ⟨hk, hrest⟩ := hnd
    show alookup (processSource w (processModel w ts k sc) rest) m = _
    by_cases hm : k = m
    · subst hm
      rw [alookup_processSource_not_mem w rest _ _ hk]
      rw [alookup_processModel, if_pos rfl]
      simp [alookup]
    · have hcons : alookup ((k, sc) :: rest) m = alookup rest m := by
        simp [alookup, hm]
      have hpm : alookup (processModel w ts k sc) m = alookup ts m := by
        rw [alookup_processModel, if_neg (fun h => hm h.symm)]
      rw [ih _ hrest, hcons, hpm]

theorem contribList_eq_nil (d : AllModelData) (weights : List (String × ℚ)) (m : String)
    (h : appearsWeighted d weights m = false) : contribList d weights m = [] := by
  induction d with
  | nil => rfl
  | cons p d' ih =>
    obtain ⟨a, b⟩ := p
    simp only [appearsWeighted, List.any_cons, Bool.or_eq_false_iff] at h
    obtain ⟨h1, h2⟩ := h
    have ih2 : contribList d' weights m = [] := ih h2
    have hhead : contribList ((a, b) :: d') weights m = contribList d' weights m := by
      by_cases hw0 : (alookup weights a).getD 0 = 0
      · simp [contribList, hw0]
      · have hnone : alookup b m = none := by
          cases hs : alookup b m with
          | none => rfl
          | some sc => simp [hw0, hs] at h1
        simp [contribList, hw0, hnone]
    rw [hhead, ih2]

theorem alookup_scan_fold (weights : List (String × ℚ)) (d : AllModelData) (m : String) :
    ∀ ts : List (String × (ℚ × ℚ)),
      (∀ p ∈ d, (p.2.map Prod.fst).Nodup) →
      alookup (d.foldl (scanStep weights) ts) m =
        if appearsWeighted d weights m then
          some (((alookup ts m).getD (0, 0)).1 + contribWeight d weights m,
                ((alookup ts m).getD (0, 0)).2 + contribScore d weights m)
        else alookup ts m := by
  induction d with
  | nil =>
    intro ts _
    simp [appearsWeighted, contribWeight, contribScore, contribList]
  | cons p d' ih =>
    intro ts hnd
    obtain ⟨sname, sd⟩ := p
    have hndsd : (sd.map Prod.fst).Nodup := hnd _ (List.mem_cons_self _ _)
    have hnd' : ∀ q ∈ d', (q.2.map Prod.fst).Nodup := fun q hq => hnd q (List.mem_cons_of_mem _ hq)
    show alookup (d'.foldl (scanStep weights) (scanStep weights ts (sname, sd))) m = _
    rw [ih _ hnd']
    by_cases hw0 : (alookup weights sname).getD 0 = 0
    · have hstep : scanStep weights ts (sname, sd) = ts := by simp [scanStep, hw0]
      have ha : appearsWeighted ((sname, sd) :: d') weights m = appearsWeighted d' weights m := by
        simp [appearsWeighted, hw0]
      have hc : contribList ((sname, sd) :: d') weights m = contribList d' weights m := by
        simp [contribList, hw0]
      rw [hstep, ha]
      simp only [contribWeight, contribScore, hc]
    · have hstep : scanStep weights ts (sname, sd)
          = processSource ((alookup weights sname).getD 0) ts sd := by
        simp [scanStep, hw0]
      rw [hstep]
      cases hsd : alookup sd m with
      | none =>
        have hps : alookup (processSource ((alookup weights sname).getD 0) ts sd) m
            = alookup ts m := by
          rw [alookup_processSource _ _ _ _ hndsd, hsd]
        have ha : appearsWeighted ((sname, sd) :: d') weights m
            = appearsWeighted d' weights m := by
          simp [appearsWeighted, hsd]
        have hc : contribList ((sname, sd) :: d') weights m = contribList d' weights m := by
          simp [contribList, hsd]
        rw [hps, ha]
        simp only [contribWeight, contribScore, hc]
      | some sc =>
        have ha : appearsWeighted ((sname, sd) :: d') weights m = true := by
          simp [appearsWeighted, hsd, hw0]
        have hps : alookup (processSource ((alookup weights sname).getD 0) ts sd) m
            = some (pmUpd ((alookup weights sname).getD 0) sc ((alookup ts m).getD (0, 0))) := by
          rw [alookup_processSource _ _ _ _ hndsd, hsd]
        rw [hps, ha, if_pos rfl]
        by_cases hv : 0 < overallOf sc
        · have hc : contribList ((sname, sd) :: d') weights m
              = ((alookup weights sname).getD 0, overallOf sc) :: contribList d' weights m := by
            simp [contribList, hw0, hsd, hv]
          simp only [pmUpd, if_pos hv, updEntry]
          cases happ : appearsWeighted d' weights m
          · have hnil : contribList d' weights m = [] := contribList_eq_nil d' weights m happ
            simp [contribWeight, contribScore, hc, hnil]
          · simp only [contribWeight, contribScore, hc, List.map_cons, List.sum_cons,
              Option.getD_some]
            simp [Prod.ext_iff]
            constructor <;> ring
        · have hc : contribList ((sname, sd) :: d') weights m = contribList d' weights m := by
            simp [contribList, hw0, hsd, hv]
          simp only [pmUpd, if_neg hv]
          cases happ : appearsWeighted d' weights m
          · have hnil : contribList d' weights m = [] := contribList_eq_nil d' weights m happ
            simp [contribWeight, contribScore, hc, hnil]
          · simp [contribWeight, contribScore, hc]

theorem alookup_themeScoresAcc (weights : List (String × ℚ)) (d : AllModelData) (m : String)
    (hnd : ∀ p ∈ d, (p.2.map Prod.fst).Nodup) :
    alookup (themeScoresAcc weights d) m =
      if appearsWeighted d weights m then
        some (contribWeight d weights m, contribScore d weights m)
      else none := by
  have h := alookup_scan_fold weights d m [] hnd
  simpa [themeScoresAcc, alookup] using h

/-! Accumulator key uniqueness and membership -/

theorem nodup_ainsertDefault (ts : List (String × (ℚ × ℚ))) (k : String)
    (h : (ts.map Prod.fst).Nodup) : ((ainsertDefault ts k).map Prod.fst).Nodup := by
  unfold ainsertDefault
  by_cases hp : (alookup ts k).isSome
  · simpa [hp] using h
  · have hk : k ∉ ts.map Prod.fst :=
      (alookup_eq_none_iff ts k).mp (Option.not_isSome_iff_eq_none.mp hp)
    rw [if_neg hp, List.map_append]
    simp [List.nodup_append, h, hk]

theorem nodup_processModel (w : ℚ) (ts : List (String × (ℚ × ℚ))) (k : String) (sc : Scores)
    (h : (ts.map Prod.fst).Nodup) : ((processModel w ts k sc).map Prod.fst).Nodup := by
  simp only [processModel]
  by_cases hv : 0 < overallOf sc
  · rw [if_pos hv, map_fst_aupdate]
    exact nodup_ainsertDefault ts k h
  · rw [if_neg hv]
    exact nodup_ainsertDefault ts k h

theorem nodup_processSource (w : ℚ) (sd : SourceData) (ts : List (String × (ℚ × ℚ)))
    (h : (ts.map Prod.fst).Nodup) : ((processSource w ts sd).map Prod.fst).Nodup := by
  induction sd generalizing ts with
  | nil => exact h
  | cons p rest ih =>
    exact ih (processModel w ts p.1 p.2) (nodup_processModel w ts p.1 p.2 h)

theorem nodup_themeScoresAcc (weights : List (String × ℚ)) (d : AllModelData) :
    ((themeScoresAcc weights d).map Prod.fst).Nodup := by
  suffices h : ∀ ts : List (String × (ℚ × ℚ)), (ts.map Prod.fst).Nodup →
      ((d.foldl (scanStep weights) ts).map Prod.fst).Nodup by
    exact h [] (by simp)
  induction d with
  | nil => intro ts h; exact h
  | cons p d' ih =>
    intro ts h
    refine ih _ ?_
    simp only [scanStep]
    by_cases hw : (alookup weights p.1).getD 0 = 0
    · simpa [hw] using h
    · simpa [hw] using nodup_processSource _ p.2 ts h

theorem alookup_of_mem_nodup {α : Type} (l : List (String × α)) (p : String × α)
    (hnd : (l.map Prod.fst).Nodup) (hp : p ∈ l) : alookup l p.1 = some p.2 := by
  induction l with
  | nil => cases hp
  | cons q rest ih =>
    simp only [List.map_cons, List.nodup_cons] at hnd
    rcases List.mem_cons.mp hp with rfl | hmem
    · simp [alookup]
    · have hfst : p.1 ∈ rest.map Prod.fst := List.mem_map_of_mem _ hmem
      have hne : q.1 ≠ p.1 := fun e => hnd.1 (e ▸ hfst)
      simp [alookup, hne, ih hnd.2 hmem]

/-! Normalized entries and rank assignment -/

theorem filterMap_if_eq {α β : Type} (l : List α) (q : α → Prop) [DecidablePred q]
    (f : α → β) :
    l.filterMap (fun a => if q a then some (f a) else none)
      = (l.filter (fun a => decide (q a))).map f := by
  induction l with
  | nil => rfl
  | cons a t ih => by_cases h : q a <;> simp [h, ih]

theorem normalizedEntries_eq (d : AllModelData) (weights : List (String × ℚ)) :
    normalizedEntries d weights =
      ((themeScoresAcc weights d).filter (fun p => decide (0 < p.2.1))).map
        (fun p => ⟨p.1, p.2.2 / p.2.1, themeSourcesCount d weights⟩) := by
  unfold normalizedEntries
  exact filterMap_if_eq _ _ _

theorem assignRanks_map_rank (l : List PreEntry) :
    ∀ i, (assignRanks i l).map RankEntry.rank = List.range' i l.length := by
  induction l with
  | nil => intro i; rfl
  | cons e t ih => intro i; simp [assignRanks, List.range', ih]

theorem assignRanks_length (l : List PreEntry) :
    ∀ i, (assignRanks i l).length = l.length := by
  induction l with
  | nil => intro i; rfl
  | cons e t ih => intro i; simp [assignRanks, ih]

theorem mem_assignRanks (l : List PreEntry) :
    ∀ i e, e ∈ assignRanks i l → ∃ pe ∈ l, e.model = pe.model ∧ e.score = pe.score := by
  induction l with
  | nil => intro i e h; cases h
  | cons a t ih =>
    intro i e h
    rcases List.mem_cons.mp h with rfl | hm
    · exact ⟨a, List.mem_cons_self _ _, rfl, rfl⟩
    · obtain ⟨pe, hpe, h1, h2⟩ := ih _ _ hm
      exact ⟨pe, List.mem_cons_of_mem _ hpe, h1, h2⟩

theorem assignRanks_pairwise (l : List PreEntry) (h : l.Pairwise scoreGE) :
    ∀ i, (assignRanks i l).Pairwise (fun a b : RankEntry => b.score ≤ a.score) := by
  induction h with
  | nil => intro i; exact List.Pairwise.nil
  | @cons a t ha ht ih =>
    intro i
    simp only [assignRanks, List.pairwise_cons]
    refine ⟨?_, ih (i + 1)⟩
    intro b hb
    obtain ⟨pe, hpe, _, hs⟩ := mem_assignRanks t (i + 1) b hb
    rw [hs]
    exact ha pe hpe

/-! Theme ranking: rank permutation, ordering, tie-breaking -/

/-- C6 counterexample: one source reports the same overall score for `"b"`
and then `"a"`; the stable descending sort keeps encounter order, so `"b"`
gets rank 1 even though `"a"` precedes it lexicographically — ranks are not
tie-broken by model key. -/
theorem theme_ranks_tiebreak_not_lex :
    rankTheme tieData tieWeights
      = [{ model := "b", score := 50, sources_count := 1, rank := 1 },
         { model := "a", score := 50, sources_count := 1, rank := 2 }]
    ∧ ("a" : String).data < "b".data := by
  constructor
  · norm_num +decide [rankTheme, normalizedEntries, themeScoresAcc, scanStep, processSource,
      processModel, ainsertDefault, updEntry, overallOf, averageOf, alookup, aupdate,
      themeSourcesCount, List.insertionSort, List.orderedInsert, assignRanks, scoreGE,
      tieData, tieWeights, List.foldl_cons, List.foldl_nil, List.filterMap_cons]
  · decide

/-- C6 amended: for every scan and theme the assigned ranks are exactly
`1..N` in order, where `N` is the number of accumulator entries with
positive total contributing weight, and entries are ordered by descending
weighted score; ties, however, keep first-encounter (source-insertion)
order rather than lexicographic order of the model key, so the ranking is
deterministic given the same ordered observation maps. -/
theorem theme_ranks_permutation (d : AllModelData) (weights : List (String × ℚ)) :
    (rankTheme d weights).map RankEntry.rank = List.range' 1 (rankTheme d weights).length
    ∧ (rankTheme d weights).length
        = ((themeScoresAcc weights d).filter (fun p => decide (0 < p.2.1))).length
    ∧ (rankTheme d weights).Pairwise (fun a b : RankEntry => b.score ≤ a.score) := by
  refine ⟨?_, ?_, ?_⟩
  · unfold rankTheme
    rw [assignRanks_map_rank, assignRanks_length]
  · unfold rankTheme
    rw [assignRanks_length, List.length_insertionSort, normalizedEntries_eq,
      List.length_map]
  · unfold rankTheme
    exact assignRanks_pairwise _ (List.sorted_insertionSort scoreGE _) 1

/-! Theme ranking: the weighted-average score -/

/-- C5: every entry of a theme's ranking carries the weight-normalized
average `Σ(overall × weight) / Σ(weight)` over exactly the nonzero-weight
sources that reported a usable positive overall metric for the model
(a source with no usable value contributes no weight); a model whose
total contributing weight is zero is excluded; and in the §8 two-source
scenario `gpt-4` scores 86 while `claude-3-sonnet` scores 95 and ranks
first.  (Source maps are assumed to have unique model keys, as Python
dicts do.) -/
theorem theme_score_weighted_mean :
    (∀ (d : AllModelData) (weights : List (String × ℚ)),
      (∀ p ∈ d, (p.2.map Prod.fst).Nodup) →
      ∀ e ∈ rankTheme d weights,
        0 < contribWeight d weights e.model
        ∧ e.score = contribScore d weights e.model / contribWeight d weights e.model)
    ∧ (∀ (d : AllModelData) (weights : List (String × ℚ)),
      (∀ p ∈ d, (p.2.map Prod.fst).Nodup) →
      ∀ m : String, contribWeight d weights m = 0 →
        ∀ e ∈ rankTheme d weights, e.model ≠ m)
    ∧ rankTheme scenarioData scenarioWeights
        = [{ model := "claude-3-sonnet", score := 95, sources_count := 2, rank := 1 },
           { model := "gpt-4", score := 86, sources_count := 2, rank := 2 }] := by
  have main : ∀ (d : AllModelData) (weights : List (String × ℚ)),
      (∀ p ∈ d, (p.2.map Prod.fst).Nodup) →
      ∀ e ∈ rankTheme d weights,
        0 < contribWeight d weights e.model
        ∧ e.score = contribScore d weights e.model / contribWeight d weights e.model := by
    intro d weights hnd e he
    obtain ⟨pe, hpe, hmodel, hscore⟩ := mem_assignRanks _ _ _ he
    rw [List.mem_insertionSort, normalizedEntries_eq] at hpe
    obtain ⟨q, hq, hfq⟩ := List.mem_map.mp hpe
    obtain ⟨hqmem, hqpos'⟩ := List.mem_filter.mp hq
    have hqpos : 0 < q.2.1 := of_decide_eq_true hqpos'
    have hlookup : alookup (themeScoresAcc weights d) q.1 = some q.2 :=
      alookup_of_mem_nodup _ q (nodup_themeScoresAcc weights d) hqmem
    rw [alookup_themeScoresAcc weights d q.1 hnd] at hlookup
    by_cases happ : appearsWeighted d weights q.1
    · rw [if_pos happ] at hlookup
      have hq2 : q.2 = (contribWeight d weights q.1, contribScore d weights q.1) :=
        (Option.some.inj hlookup).symm
      have hm : e.model = q.1 := by rw [hmodel, ← hfq]
      have hs : e.score = q.2.2 / q.2.1 := by rw [hscore, ← hfq]
      rw [hm, hs, hq2]
      exact ⟨by rw [hq2] at hqpos; exact hqpos, rfl⟩
    · rw [if_neg happ] at hlookup
      cases hlookup
  refine ⟨main, ?_, ?_⟩
  · intro d weights hnd m h0 e he hme
    have h := (main d weights hnd e he).1
    rw [hme, h0] at h
    exact lt_irrefl 0 h
  · norm_num +decide [rankTheme, normalizedEntries, themeScoresAcc, scanStep, processSource,
      processModel, ainsertDefault, updEntry, overallOf, averageOf, alookup, aupdate,
      themeSourcesCount, List.insertionSort, List.orderedInsert, assignRanks, scoreGE,
      scenarioData, scenarioWeights, List.foldl_cons, List.foldl_nil,
      List.filterMap_cons, List.filterMap_nil, show (0:ℚ) < 2/5 by norm_num]

/-- C5 witness: the theorem applied to the §8 scenario at the rank-1 entry:
`claude-3-sonnet` has positive contributing weight and its score 95 is the
weight-normalized average of its contributions. -/
theorem theme_score_weighted_mean_witness :
    0 < contribWeight scenarioData scenarioWeights "claude-3-sonnet"
    ∧ (95 : ℚ) = contribScore scenarioData scenarioWeights "claude-3-sonnet"
        / contribWeight scenarioData scenarioWeights "claude-3-sonnet" := by
  have hmem : ({ model := "claude-3-sonnet", score := 95, sources_count := 2, rank := 1 }
      : RankEntry) ∈ rankTheme scenarioData scenarioWeights := by
    rw [theme_score_weighted_mean.2.2]
    exact List.mem_cons_self _ _
  exact theme_score_weighted_mean.1 scenarioData scenarioWeights (by decide) _ hmem

/-! Model Evaluation Builder -/

theorem alookup_map_self {α : Type} (l : List String) (f : String → α) (m : String)
    (h : m ∈ l) : alookup (l.map (fun k => (k, f k))) m = some (f m) := by
  induction l with
  | nil => cases h
  | cons a t ih =>
    rcases List.mem_cons.mp h with rfl | hm
    · simp [alookup]
    · by_cases ha : a = m
      · subst ha; simp [alookup]
      · simp [alookup, ha, ih hm]

/-- C2 counterexample: a model known only through an arena `rating` metric
(no usable `overall`/`Average`) is NOT omitted from the evaluation map: it
receives an entry with a defaulted `overall_score = 0` and
`sources_count = 0`. -/
theorem zero_source_model_not_omitted :
    (create_model_evaluations arenaOnlyData [] "t").map Prod.fst = ["model-x"]
    ∧ (alookup (create_model_evaluations arenaOnlyData [] "t") "model-x").map
        ModelEval.overall_score = some 0
    ∧ (alookup (create_model_evaluations arenaOnlyData [] "t") "model-x").map
        ModelEval.sources_count = some 0 := by
  refine ⟨by decide, by decide, by decide⟩

/-- C2 amended: every model seen by any source gets an entry; a model with
no usable overall metric keeps the defaulted `overall_score = 0` and
`sources_count = 0` (it is not omitted), while a model with at least one
contributing source gets the arithmetic mean of the usable metrics and
their count. -/
theorem overall_score_mean_or_default (d : AllModelData)
    (rankings : List (String × List RankEntry)) (now : String) (m : String)
    (h : m ∈ allModels d) :
    alookup (create_model_evaluations d rankings now) m = some (buildEval d rankings now m)
    ∧ (usableOveralls d m = [] →
        (buildEval d rankings now m).overall_score = 0
        ∧ (buildEval d rankings now m).sources_count = 0)
    ∧ (usableOveralls d m ≠ [] →
        (buildEval d rankings now m).overall_score
          = (usableOveralls d m).sum / ((usableOveralls d m).length : ℚ)
        ∧ (buildEval d rankings now m).sources_count = (usableOveralls d m).length) := by
  refine ⟨alookup_map_self _ _ _ h, ?_, ?_⟩
  · intro he
    simp [buildEval, he]
  · intro hne
    have hlen : (usableOveralls d m).length ≠ 0 := by simpa using hne
    simp [buildEval, hlen]

/-- C2 amended witness: the theorem applied to the arena-only fixture:
`model-x` has an entry with defaulted zero overall score and zero sources. -/
theorem overall_score_mean_or_default_witness :
    (buildEval arenaOnlyData [] "t" "model-x").overall_score = 0
    ∧ (buildEval arenaOnlyData [] "t" "model-x").sources_count = 0 :=
  (overall_score_mean_or_default arenaOnlyData [] "t" "model-x" (by decide)).2.1 (by decide)

/-- C7 counterexample: the builder stamps `datetime.utcnow()` into every
record's `last_updated`, so two calls on identical observation maps and
rankings but at different clock readings produce different output. -/
theorem builder_output_depends_on_clock :
    create_model_evaluations arenaOnlyData [] "2024-01-01T00:00:00"
      ≠ create_model_evaluations arenaOnlyData [] "2024-01-02T00:00:00" := by
  intro h
  have h2 := congrArg (List.map (fun p => ModelEval.last_updated p.2)) h
  simp +decide [create_model_evaluations, allModels, buildEval, arenaOnlyData,
    List.foldl_cons, List.foldl_nil] at h2

/-- C7 amended: the builder is a pure function of the observation maps, the
theme rankings, and the clock reading: apart from the `last_updated` stamp,
its output is identical across runs at different times (and two runs at the
same clock reading are byte-identical, the builder being a function). -/
theorem builder_pure_given_clock :
    ∀ (d : AllModelData) (rankings : List (String × List RankEntry)) (t1 t2 : String),
      (create_model_evaluations d rankings t1).map (fun p => (p.1, eraseTimestamp p.2))
        = (create_model_evaluations d rankings t2).map (fun p => (p.1, eraseTimestamp p.2)) := by
  intro d rankings t1 t2
  simp only [create_model_evaluations, List.map_map]
  rfl

/-! Harvest Coordinator: failing sources leave `errors` empty -/

/-- C3: with two configured sources whose scrapes both raise (network
failure), the completed scan records NO error strings — `_scrape_source`
catches every scraping exception and returns `None`, so the error-append in
`run_full_scan` is unreachable for scrape failures; `errors` has length 0,
not one entry per failed source, while `models_found = 0` as claimed. -/
theorem all_fail_scan_records_no_errors :
    (run_full_scan allFailSources [] ["coding_programming"] "t").errors = []
    ∧ (run_full_scan allFailSources [] ["coding_programming"] "t").models_found = 0
    ∧ allFailSources.length = 2 := by
  refine ⟨by decide, by decide, by decide⟩

/-! Scheduler: an all-sources-failed scan replaces the snapshot -/

/-- C1: a scan in which every configured source fails still completes
normally; `_run_scan` then hands the EMPTY `model_evaluations` map to
`update_dynamic_evaluations`, which unconditionally overwrites the
selector's previously published snapshot with `{}` and bumps
`last_evaluation_update` — the stale-but-valid data is lost, and the scan
is even counted as successful (`failed_scans` stays 0). -/
theorem all_fail_scan_wipes_snapshot :
    (run_scan_step previousSnapshot ⟨5, 5, 0⟩ allFailSources [] ["coding_programming"]
        "2024-01-02T00:00:00" "2024-01-02T00:00:05").1
      = { dynamic_model_scores := [], last_evaluation_update := some "2024-01-02T00:00:05" }
    ∧ previousSnapshot.dynamic_model_scores ≠ []
    ∧ previousSnapshot.last_evaluation_update ≠ some "2024-01-02T00:00:05"
    ∧ (run_scan_step previousSnapshot ⟨5, 5, 0⟩ allFailSources [] ["coding_programming"]
        "2024-01-02T00:00:00" "2024-01-02T00:00:05").2
      = { total_scans := 6, successful_scans := 6, failed_scans := 0 } := by
  refine ⟨by decide, by decide, by decide, by decide⟩

/-! Model Selector: budget-tier filtering -/

/-- C8: for the `"budget"` tier, when some candidate's static cost is at or
below the ceiling the selector returns an affordable candidate of maximal
score; when none qualifies it falls back to the maximal-score candidate of
the unfiltered ranking; an empty candidate map yields the safe default
rather than "no model available"; and in the §8 scenario with costs
`[0.001, 0.01, 0.05]` and ceiling `0.01` the higher-scoring of the two
affordable candidates (`m2`) is picked. -/
theorem select_optimal_budget :
    (∀ (scored base : List (String × ℚ)) (limit : ℚ),
      (∃ p ∈ scored, costOf base p.1 ≤ limit) →
      ∃ p ∈ scored,
        select_optimal_model scored base limit "budget" = p.1
        ∧ costOf base p.1 ≤ limit
        ∧ ∀ q ∈ scored, costOf base q.1 ≤ limit → q.2 ≤ p.2)
    ∧ (∀ (scored base : List (String × ℚ)) (limit : ℚ),
      scored ≠ [] →
      (∀ p ∈ scored, limit < costOf base p.1) →
      ∃ p ∈ scored,
        select_optimal_model scored base limit "budget" = p.1
        ∧ ∀ q ∈ scored, q.2 ≤ p.2)
    ∧ (∀ (base : List (String × ℚ)) (limit : ℚ) (tier : String),
      select_optimal_model [] base limit tier = "claude-3-sonnet")
    ∧ select_optimal_model demoScored demoBase (1/100) "budget" = "m2" := by
  refine ⟨?_, ?_, ?_, ?_⟩
  · rintro scored base limit ⟨p0, hp0, hc0⟩
    cases hs : List.insertionSort pairScoreGE scored with
    | nil =>
      exfalso
      have hmem : p0 ∈ List.insertionSort pairScoreGE scored :=
        (List.mem_insertionSort (r := pairScoreGE)).mpr hp0
      rw [hs] at hmem
      cases hmem
    | cons top rest =>
      have hsorted : (top :: rest).Pairwise pairScoreGE := by
        have h := List.sorted_insertionSort pairScoreGE scored
        rw [hs] at h
        exact h
      have hmemiff : ∀ x : String × ℚ, x ∈ top :: rest ↔ x ∈ scored := by
        intro x
        rw [← hs]
        exact List.mem_insertionSort (r := pairScoreGE)
      cases hf : (top :: rest).filter (fun p => decide (costOf base p.1 ≤ limit)) with
      | nil =>
        exfalso
        have hp0f : p0 ∈ (top :: rest).filter (fun p => decide (costOf base p.1 ≤ limit)) :=
          List.mem_filter.mpr ⟨(hmemiff p0).mpr hp0, decide_eq_true hc0⟩
        rw [hf] at hp0f
        cases hp0f
      | cons b bs =>
        have hbmem : b ∈ (top :: rest).filter (fun p => decide (costOf base p.1 ≤ limit)) := by
          rw [hf]
          exact List.mem_cons_self b bs
        obtain ⟨hbin, hbcost'⟩ := List.mem_filter.mp hbmem
        have hbcost : costOf base b.1 ≤ limit := of_decide_eq_true hbcost'
        have hresult : select_optimal_model scored base limit "budget" = b.1 := by
          unfold select_optimal_model
          rw [hs]
          simp [hf]
        have hfsorted : (b :: bs).Pairwise pairScoreGE := by
          have h := hsorted.filter (fun p => decide (costOf base p.1 ≤ limit))
          rw [hf] at h
          exact h
        refine ⟨b, (hmemiff b).mp hbin, hresult, hbcost, ?_⟩
        intro q hq hqc
        have hqf : q ∈ b :: bs := by
          rw [← hf]
          exact List.mem_filter.mpr ⟨(hmemiff q).mpr hq, decide_eq_true hqc⟩
        rcases List.mem_cons.mp hqf with rfl | hqbs
        · exact le_refl _
        · exact (List.pairwise_cons.mp hfsorted).1 q hqbs
  · intro scored base limit hne hall
    cases hs : List.insertionSort pairScoreGE scored with
    | nil =>
      exfalso
      have hperm := List.perm_insertionSort pairScoreGE scored
      rw [hs] at hperm
      exact hne hperm.symm.eq_nil
    | cons top rest =>
      have hsorted : (top :: rest).Pairwise pairScoreGE := by
        have h := List.sorted_insertionSort pairScoreGE scored
        rw [hs] at h
        exact h
      have hmemiff : ∀ x : String × ℚ, x ∈ top :: rest ↔ x ∈ scored := by
        intro x
        rw [← hs]
        exact List.mem_insertionSort (r := pairScoreGE)
      have hf : (top :: rest).filter (fun p => decide (costOf base p.1 ≤ limit)) = [] := by
        rw [List.filter_eq_nil_iff]
        intro a ha
        simp only [decide_eq_true_eq]
        exact not_le.mpr (hall a ((hmemiff a).mp ha))
      have hresult : select_optimal_model scored base limit "budget" = top.1 := by
        unfold select_optimal_model
        rw [hs]
        simp [hf]
      refine ⟨top, (hmemiff top).mp (List.mem_cons_self _ _), hresult, ?_⟩
      intro q hq
      rcases List.mem_cons.mp ((hmemiff q).mpr hq) with rfl | hqr
      · exact le_refl _
      · exact (List.pairwise_cons.mp hsorted).1 q hqr
  · intro base limit tier
    rfl
  · norm_num +decide [select_optimal_model, demoScored, demoBase, costOf, alookup,
      List.insertionSort, List.orderedInsert, pairScoreGE]

/-- C8 witness: the theorem applied to the §8 scenario: an affordable
candidate exists (`m1` at cost 0.001 ≤ 0.01), so the selector returns an
affordable candidate of maximal score. -/
theorem select_optimal_budget_witness :
    ∃ p ∈ demoScored,
      select_optimal_model demoScored demoBase (1/100) "budget" = p.1
      ∧ costOf demoBase p.1 ≤ 1/100
      ∧ ∀ q ∈ demoScored, costOf demoBase q.1 ≤ 1/100 → q.2 ≤ p.2 :=
  select_optimal_budget.1 demoScored demoBase (1/100)
    ⟨("m1", 8/10), by norm_num [demoScored], by norm_num [costOf, demoBase, alookup]⟩

end PromptYourAI
